import Mathlib

/-!
Verification of the shard-DDL coordination registries of this repository
(`pkg/shardddl/optimism/keeper.go`): the `LockKeeper` (lock registry) and the
`TableKeeper` (table registry), together with the value types they manipulate.

Go maps are embedded as association lists (`List (κ × α)`); a Go map never
holds two bindings for one key, which appears below as the `keysNodup`
well-formedness predicate where a theorem needs it.  Mutation of a receiver is
embedded as explicit state passing: each Go method returning `T` becomes a Lean
function returning the updated receiver paired with `T`.
-/

set_option autoImplicit false


section MapModel

variable {κ : Type} [DecidableEq κ] {α : Type}

/-- First-match lookup in an association list: the embedding of `m[k]` (read)
on a Go map. -/
def lookupL (m : List (κ × α)) (k : κ) : Option α :=
  match m with
  | [] => none
  | p :: rest => if p.1 = k then some p.2 else lookupL rest k

/-- Replace the first binding of `k`, or append one: the embedding of
`m[k] = v` on a Go map. -/
def upsert (m : List (κ × α)) (k : κ) (v : α) : List (κ × α) :=
  match m with
  | [] => [(k, v)]
  | p :: rest => if p.1 = k then (k, v) :: rest else p :: upsert rest k v

/-- Drop every binding of `k`: the embedding of `delete(m, k)` on a Go map. -/
def eraseKey (m : List (κ × α)) (k : κ) : List (κ × α) :=
  match m with
  | [] => []
  | p :: rest => if p.1 = k then eraseKey rest k else p :: eraseKey rest k

/-- A Go map never binds one key twice; association lists produced by the
operations above preserve this. -/
def keysNodup (m : List (κ × α)) : Prop :=
  (m.map Prod.fst).Nodup

instance (m : List (κ × α)) : Decidable (keysNodup m) := by
  unfold keysNodup; infer_instance

end MapModel


/-! ## Value types exchanged with the coordination store

`SourceTables` and `Info` are declared in sibling files of this package that
are not part of the excerpt; their shape is fixed by how `keeper.go` and
`ops_test.go` use them and by the spec's data model (§3). -/

/-- Modelled from the spec: the opaque "schema snapshot" carried by a change
report (`model.TableInfo` in the source, consumed as opaque comparable data);
we represent a schema as a list of (column name, column type) pairs. -/
abbrev Schema := List (String × String)

/-- Modelled from the spec: a Table Set (`SourceTables`) — task, source, a
mapping from upstream schema name to the set of table names, and the deletion
tombstone flag (§3).  The table-name set is kept as a duplicate-free list. -/
structure SourceTables where
  Task : String
  Source : String
  Tables : List (String × List String)
  IsDeleted : Bool
deriving DecidableEq, Repr

/-- Modelled from the spec: `NewSourceTables` builds a live (non-tombstoned)
Table Set, as used by `ops_test.go` and `TableKeeper.AddTable`. -/
def NewSourceTables (task source : String)
    (tables : List (String × List String)) : SourceTables :=
  { Task := task, Source := source, Tables := tables, IsDeleted := false }

/-- Modelled from the spec: `SourceTables.AddTable` inserts a table into the
per-schema set, creating the set on first use, and reports whether the table
was newly added (§4.2). -/
def SourceTables.AddTable (st : SourceTables) (schema table : String) :
    SourceTables × Bool :=
  let tbls := match lookupL st.Tables schema with
              | some t => t
              | none => []
  if table ∈ tbls then (st, false)
  else ({ st with Tables := upsert st.Tables schema (tbls ++ [table]) }, true)

/-- Modelled from the spec: `SourceTables.RemoveTable` removes a table from
the per-schema set and reports whether it was present; absence of the schema
or table yields `false` (§4.2). -/
def SourceTables.RemoveTable (st : SourceTables) (schema table : String) :
    SourceTables × Bool :=
  match lookupL st.Tables schema with
  | none => (st, false)
  | some tbls =>
    if table ∈ tbls then
      let remaining := tbls.filter (fun t => decide (t ≠ table))
      ({ st with Tables := upsert st.Tables schema remaining }, true)
    else (st, false)

/-- Modelled from the spec: a shard-DDL change report (`Info`) — task, source,
upstream and downstream identity, the DDL statements, and the schema
snapshots before/after the change (§3), matching the `NewInfo` argument order
seen in `ops_test.go`. -/
structure Info where
  Task : String
  Source : String
  UpSchema : String
  UpTable : String
  DownSchema : String
  DownTable : String
  DDLs : List String
  TableInfoBefore : Schema
  TableInfoAfter : Schema
deriving DecidableEq, Repr

/-! ## The DDL lock (state machine)

`Lock`, `NewLock` and `Lock.TrySync` live in `lock.go`, outside the excerpt;
they are modelled from the spec (§3, §4.3).  The `LockKeeper` theorems below
depend only on the call shape of these definitions, not on the synchronization
decision they encode. -/

/-- Modelled from the spec: a DDL Lock — its identifier, task, the joined
downstream schema, and the per-source reconciliation status (§3). -/
structure Lock where
  ID : String
  Task : String
  joined : Schema
  done : List (String × Bool)
deriving DecidableEq, Repr

/-- Modelled from the spec: `NewLock` seeds a lock with the report's
pre-change schema and the participants drawn from the supplied table sets
(§4.1). -/
def NewLock (id task : String) (tableInfoBefore : Schema)
    (sts : List SourceTables) : Lock :=
  { ID := id, Task := task, joined := tableInfoBefore,
    done := sts.map (fun st => (st.Source, false)) }

/-- Modelled from the spec: `schemaAfter` is a non-conflicting extension of
the joined schema when it keeps every column the joined schema defines, with
the same type (§4.3). -/
def Schema.isExtensionOf (after joined : Schema) : Bool :=
  joined.all (fun c => decide (c ∈ after))

/-- Modelled from the spec: the lock's `TrySync` (§4.3) — refresh the
participants from the table sets, then either advance the joined schema and
mark the source reconciled (returning the DDLs unchanged), or report a schema
conflict and leave the joined schema untouched. -/
def Lock.TrySync (l : Lock) (source upSchema upTable : String)
    (ddls : List String) (schemaAfter : Schema) (sts : List SourceTables) :
    Lock × List String × Option String :=
  let _ := upSchema
  let _ := upTable
  let refreshed := sts.foldl
    (fun d st => if (lookupL d st.Source).isSome then d else d ++ [(st.Source, false)])
    l.done
  if Schema.isExtensionOf schemaAfter l.joined then
    ({ l with joined := schemaAfter, done := upsert refreshed source true },
     ddls, none)
  else
    ({ l with done := refreshed }, [], some "schema conflict")

/-! ## LockKeeper (`keeper.go`) -/

/-- `LockKeeper` keeps the DDL locks, keyed by lock ID (`keeper.go`). -/
structure LockKeeper where
  locks : List (String × Lock)
deriving DecidableEq, Repr

/-- `NewLockKeeper` creates an empty keeper. -/
def NewLockKeeper : LockKeeper := ⟨[]⟩

/-- Backtick-doubling over the character list (the effect of
`strings.Replace(name, "\x60", "\x60\x60", -1)` in `dbutil.escapeName`). -/
def escapeChars : List Char → List Char
  | [] => []
  | c :: rest =>
    if c = '`' then '`' :: '`' :: escapeChars rest else c :: escapeChars rest

/-- `dbutil.escapeName` (external helper from `tidb-tools`): double every
embedded backtick. -/
def escapeName (name : String) : String :=
  ⟨escapeChars name.data⟩

/-- `dbutil.TableName` (external helper from `tidb-tools`): quotes
`schema.table` with backticks. -/
def TableName (schema table : String) : String :=
  "`" ++ escapeName schema ++ "`.`" ++ escapeName table ++ "`"

/-- `genDDLLockID` generates the DDL lock ID from a shard DDL info:
`fmt.Sprintf("%s-%s", info.Task, dbutil.TableName(info.DownSchema,
info.DownTable))`. -/
def genDDLLockID (info : Info) : String :=
  info.Task ++ "-" ++ TableName info.DownSchema info.DownTable

/-- The lock `LockKeeper.TrySync` operates on: the stored one when the ID is
already present, else a fresh `NewLock` (the `if l, ok = lk.locks[lockID]; !ok`
block of `TrySync`). -/
def LockKeeper.resolveLock (lk : LockKeeper) (info : Info)
    (sts : List SourceTables) : Lock :=
  match lookupL lk.locks (genDDLLockID info) with
  | some l => l
  | none => NewLock (genDDLLockID info) info.Task info.TableInfoBefore sts

/-- Result of `LockKeeper.TrySync`: the updated keeper (the Go receiver is
mutated in place) plus the Go results `(lockID, newDDLs, err)`. -/
structure TrySyncResult where
  keeper : LockKeeper
  lockID : String
  newDDLs : List String
  err : Option String
deriving DecidableEq, Repr

/-- `LockKeeper.TrySync`: compute the lock ID, fetch or create the lock,
delegate to `Lock.TrySync`, and store the (mutated) lock back under the ID. -/
def LockKeeper.TrySync (lk : LockKeeper) (info : Info)
    (sts : List SourceTables) : TrySyncResult :=
  let lockID := genDDLLockID info
  let l := lk.resolveLock info sts
  let r := l.TrySync info.Source info.UpSchema info.UpTable info.DDLs
    info.TableInfoAfter sts
  { keeper := ⟨upsert lk.locks lockID r.1⟩, lockID := lockID,
    newDDLs := r.2.1, err := r.2.2 }

/-- `LockKeeper.RemoveLock`: delete the lock, reporting whether it existed. -/
def LockKeeper.RemoveLock (lk : LockKeeper) (lockID : String) :
    LockKeeper × Bool :=
  (⟨eraseKey lk.locks lockID⟩, (lookupL lk.locks lockID).isSome)

/-- `LockKeeper.FindLock`: map lookup (`nil` for a missing lock becomes
`none`). -/
def LockKeeper.FindLock (lk : LockKeeper) (lockID : String) : Option Lock :=
  lookupL lk.locks lockID

/-- `LockKeeper.FindLockByInfo`: recompute the ID and delegate to
`FindLock`. -/
def LockKeeper.FindLockByInfo (lk : LockKeeper) (info : Info) : Option Lock :=
  lk.FindLock (genDDLLockID info)

/-- `LockKeeper.Clear`: discard all locks. -/
def LockKeeper.Clear (lk : LockKeeper) : LockKeeper :=
  let _ := lk
  ⟨[]⟩

/-! ## TableKeeper (`keeper.go`) -/

/-- `TableKeeper` keeps the initial tables for a task:
`task-name -> source-ID -> tables`. -/
structure TableKeeper where
  tables : List (String × List (String × SourceTables))
deriving DecidableEq, Repr

/-- `NewTableKeeper` creates an empty keeper. -/
def NewTableKeeper : TableKeeper := ⟨[]⟩

/-- `TableKeeper.Init`: wholesale replacement — a fresh outer map, then copy
each task's inner map entry by entry (`for task, sts := range stm { for
source, st := range sts { ... } }`). -/
def TableKeeper.Init (tk : TableKeeper)
    (stm : List (String × List (String × SourceTables))) : TableKeeper :=
  let _ := tk
  ⟨stm.map (fun p => (p.1, p.2.foldl (fun i q => upsert i q.1 q.2) []))⟩

/-- `TableKeeper.Update`: with the tombstone set, delete the source's entry
from the task's inner map (requiring both to exist); otherwise insert or
overwrite the entry (creating the task's inner map on first use). -/
def TableKeeper.Update (tk : TableKeeper) (st : SourceTables) :
    TableKeeper × Bool :=
  if st.IsDeleted then
    match lookupL tk.tables st.Task with
    | none => (tk, false)
    | some inner =>
      if (lookupL inner st.Source).isSome then
        (⟨upsert tk.tables st.Task (eraseKey inner st.Source)⟩, true)
      else (tk, false)
  else
    let inner := match lookupL tk.tables st.Task with
                 | some i => i
                 | none => []
    (⟨upsert tk.tables st.Task (upsert inner st.Source st)⟩, true)

/-- `TableKeeper.AddTable`: only for a task already known to the keeper;
creates an empty `SourceTables` for the source on first use, then delegates
to `SourceTables.AddTable` and stores the modified value back. -/
def TableKeeper.AddTable (tk : TableKeeper) (task source schema table : String) :
    TableKeeper × Bool :=
  match lookupL tk.tables task with
  | none => (tk, false)
  | some inner =>
    let st := match lookupL inner source with
              | some st => st
              | none => NewSourceTables task source []
    let r := st.AddTable schema table
    (⟨upsert tk.tables task (upsert inner source r.1)⟩, r.2)

/-- `TableKeeper.RemoveTable`: requires the task and the source to exist,
then delegates to `SourceTables.RemoveTable` and stores the modified value
back. -/
def TableKeeper.RemoveTable (tk : TableKeeper)
    (task source schema table : String) : TableKeeper × Bool :=
  match lookupL tk.tables task with
  | none => (tk, false)
  | some inner =>
    match lookupL inner source with
    | none => (tk, false)
    | some st =>
      let r := st.RemoveTable schema table
      (⟨upsert tk.tables task (upsert inner source r.1)⟩, r.2)

/-- The ordering `SourceTablesSlice.Less` sorts by: ascending `Source`
field. -/
def bySource (a b : SourceTables) : Prop :=
  a.Source ≤ b.Source

instance : DecidableRel bySource := by
  unfold bySource DecidableRel; infer_instance

instance : IsTotal SourceTables bySource :=
  ⟨fun a b => le_total a.Source b.Source⟩

instance : IsTrans SourceTables bySource :=
  ⟨fun _ _ _ hab hbc => le_trans hab hbc⟩

/-- `SourceTablesMapToSlice`: collect the map's values and `sort.Sort` them
by the `Source` field (`SourceTablesSlice.Less`). -/
def SourceTablesMapToSlice (stm : List (String × SourceTables)) :
    List SourceTables :=
  List.insertionSort bySource (stm.map Prod.snd)

/-- `TableKeeper.FindTables`: the task's source tables as a sorted slice, or
`nil` (here `[]`) for an unknown task. -/
def TableKeeper.FindTables (tk : TableKeeper) (task : String) :
    List SourceTables :=
  match lookupL tk.tables task with
  | none => []
  | some stm => SourceTablesMapToSlice stm

/-- Composite read used by the theorems: the entry a `TableKeeper` holds for
`(task, source)`, if any. -/
def TableKeeper.entry (tk : TableKeeper) (task source : String) :
    Option SourceTables :=
  (lookupL tk.tables task).bind (fun inner => lookupL inner source)

/-- Read used by the theorems: whether a `SourceTables` holds `table` under
`schema`. -/
def SourceTables.hasTableB (st : SourceTables) (schema table : String) : Bool :=
  match lookupL st.Tables schema with
  | none => false
  | some tbls => decide (table ∈ tbls)

/-- Composite read used by the theorems: whether a `TableKeeper` holds
`table` under `(task, source, schema)`. -/
def TableKeeper.hasTable (tk : TableKeeper)
    (task source schema table : String) : Bool :=
  match tk.entry task source with
  | none => false
  | some st => st.hasTableB schema table

/-- The `SourceTables` value `TableKeeper.AddTable` operates on for a known
task: the stored one, else a fresh empty one (the `if _, ok :=
tk.tables[task][source]; !ok` block). -/
def TableKeeper.resolveST (tk : TableKeeper) (task source : String) :
    SourceTables :=
  match tk.entry task source with
  | some st => st
  | none => NewSourceTables task source []

/-! ## Reference semantics for `LockKeeper.Locks`

`Locks` promises an *independent copy* of the keeper's map.  Independence is
a statement about Go's reference semantics for maps, so for this one property
the maps are lifted into an explicit heap of map cells addressed by `Nat`
references; `locks[k] = v` and `delete(locks, k)` on a map value become heap
updates at that value's cell. -/

/-- A heap of Go map cells: each allocated reference holds the contents of
one `map[string]*Lock`; `next` is the next fresh reference. -/
structure Heap where
  maps : List (Nat × List (String × Lock))
  next : Nat

/-- Every allocated reference is below `next` (true of any heap built by
allocation). -/
def Heap.WF (h : Heap) : Prop :=
  ∀ r, r ∈ h.maps.map Prod.fst → r < h.next

instance (h : Heap) : Decidable (Heap.WF h) := by
  unfold Heap.WF; infer_instance

/-- Read the contents of a map cell. -/
def heapGet (h : Heap) (r : Nat) : List (String × Lock) :=
  match lookupL h.maps r with
  | some m => m
  | none => []

/-- Overwrite the contents of a map cell. -/
def heapSet (h : Heap) (r : Nat) (m : List (String × Lock)) : Heap :=
  ⟨upsert h.maps r m, h.next⟩

/-- Allocate a fresh map cell holding `m`. -/
def heapAlloc (h : Heap) (m : List (String × Lock)) : Heap × Nat :=
  (⟨h.maps ++ [(h.next, m)], h.next + 1⟩, h.next)

/-- `locks[k] = v` through a reference. -/
def mapAssign (h : Heap) (r : Nat) (k : String) (v : Lock) : Heap :=
  heapSet h r (upsert (heapGet h r) k v)

/-- `delete(locks, k)` through a reference. -/
def mapDelete (h : Heap) (r : Nat) (k : String) : Heap :=
  heapSet h r (eraseKey (heapGet h r) k)

/-- The `LockKeeper` as Go stores it: a reference to its map cell. -/
structure HLockKeeper where
  locksRef : Nat

/-- `LockKeeper.Locks` under reference semantics: allocate a fresh map and
copy every entry into it (`locks := make(...); for k, v := range lk.locks {
locks[k] = v }`), returning the new reference. -/
def HLockKeeper.Locks (lk : HLockKeeper) (h : Heap) : Heap × Nat :=
  let src := heapGet h lk.locksRef
  heapAlloc h (src.foldl (fun acc p => upsert acc p.1 p.2) [])

/-! ## Sample values used by the closed witness theorems -/

/-- Sample report: source `s1` of task `t` targeting downstream `db.tb`. -/
def infoEx1 : Info :=
  ⟨"t", "s1", "u1", "v1", "db", "tb", ["D1"], [], [("c", "i")]⟩

/-- Sample report: a different source of task `t`, same downstream table,
differing from `infoEx1` in every field other than the identifying three. -/
def infoEx2 : Info :=
  ⟨"t", "s2", "u2", "v2", "db", "tb", [], [("a", "b")], []⟩

/-- Sample lock and one-lock keeper. -/
def lockEx : Lock := ⟨"L", "t", [], []⟩

/-- A keeper holding exactly the lock `lockEx` under ID `"L"`. -/
def lkEx : LockKeeper := ⟨[("L", lockEx)]⟩

/-- Sample table set of task `t`, source `s`: one table `sch.tbl`. -/
def stEx : SourceTables := ⟨"t", "s", [("sch", ["tbl"])], false⟩

/-- A keeper whose task `t` holds `stEx` for source `s`. -/
def tkEx : TableKeeper := ⟨[("t", [("s", stEx)])]⟩

/-- A keeper that registered task `t` whose sources were all removed: the
task key is present with an empty inner map. -/
def tkEmptyTask : TableKeeper := ⟨[("t", [])]⟩

/-- Source tables of two sources of task `t`, for the `Init` snapshot. -/
def stA : SourceTables := ⟨"t", "s1", [("sch", ["x"])], false⟩

/-- Second sample source table set of task `t`. -/
def stB : SourceTables := ⟨"t", "s2", [], false⟩

/-- A snapshot holding task `t` with sources `s2` and `s1` (unsorted). -/
def stmEx : List (String × List (String × SourceTables)) :=
  [("t", [("s2", stB), ("s1", stA)])]

/-- A one-cell heap: reference 0 holds the keeper's map with one lock. -/
def hEx : Heap := ⟨[(0, [("L", lockEx)])], 1⟩

/-- The keeper whose locks live at reference 0 of `hEx`. -/
def hkEx : HLockKeeper := ⟨0⟩

/-! ## Theorems -/

section MapLemmas

variable {κ : Type} [DecidableEq κ] {α : Type}

theorem lookupL_upsert_self (m : List (κ × α)) (k : κ) (v : α) :
    lookupL (upsert m k v) k = some v := by
  induction m with
  | nil => simp [lookupL, upsert]
  | cons p rest ih =>
    by_cases h : p.1 = k
    · simp [lookupL, upsert, h]
    · simp [lookupL, upsert, h, ih]

theorem lookupL_upsert_ne (m : List (κ × α)) (k k' : κ) (v : α) (h : k' ≠ k) :
    lookupL (upsert m k v) k' = lookupL m k' := by
  induction m with
  | nil => simp [lookupL, upsert, Ne.symm h]
  | cons p rest ih =>
    by_cases hp : p.1 = k
    · subst hp
      simp [lookupL, upsert, Ne.symm h]
    · simp [lookupL, upsert, hp, ih]

theorem lookupL_eraseKey_self (m : List (κ × α)) (k : κ) :
    lookupL (eraseKey m k) k = none := by
  induction m with
  | nil => simp [lookupL, eraseKey]
  | cons p rest ih =>
    by_cases h : p.1 = k
    · simpa [eraseKey, h] using ih
    · simpa [eraseKey, lookupL, h] using ih

theorem lookupL_eraseKey_ne (m : List (κ × α)) (k k' : κ) (h : k' ≠ k) :
    lookupL (eraseKey m k) k' = lookupL m k' := by
  induction m with
  | nil => simp [eraseKey]
  | cons p rest ih =>
    by_cases hp : p.1 = k
    · subst hp
      simpa [eraseKey, lookupL, Ne.symm h] using ih
    · simp [eraseKey, lookupL, hp, ih]

theorem lookupL_eq_none_iff (m : List (κ × α)) (k : κ) :
    lookupL m k = none ↔ k ∉ m.map Prod.fst := by
  induction m with
  | nil => simp [lookupL]
  | cons p rest ih =>
    by_cases h : p.1 = k
    · simp [lookupL, h]
    · have hstep : lookupL (p :: rest) k = lookupL rest k := by
        simp [lookupL, h]
      rw [hstep, ih]
      constructor
      · intro hk
        simp only [List.map_cons, List.mem_cons, not_or]
        exact ⟨fun hc => h hc.symm, hk⟩
      · intro hk
        simp only [List.map_cons, List.mem_cons, not_or] at hk
        exact hk.2

theorem eraseKey_of_lookupL_none (m : List (κ × α)) (k : κ)
    (h : lookupL m k = none) : eraseKey m k = m := by
  induction m with
  | nil => simp [eraseKey]
  | cons p rest ih =>
    by_cases hp : p.1 = k
    · simp [lookupL, hp] at h
    · simp only [lookupL, hp, if_false] at h
      simp [eraseKey, hp, ih h]

theorem length_eraseKey_of_nodup (m : List (κ × α)) (k : κ)
    (hnd : keysNodup m) (h : (lookupL m k).isSome) :
    (eraseKey m k).length + 1 = m.length := by
  induction m with
  | nil => simp [lookupL] at h
  | cons p rest ih =>
    unfold keysNodup at hnd
    simp only [List.map_cons, List.nodup_cons] at hnd
    by_cases hp : p.1 = k
    · subst hp
      have hrest : lookupL rest p.1 = none :=
        (lookupL_eq_none_iff rest p.1).mpr hnd.1
      simp [eraseKey, eraseKey_of_lookupL_none rest p.1 hrest]
    · simp only [lookupL, hp, if_false] at h
      have hlen := ih hnd.2 h
      simp only [eraseKey, hp, if_false, List.length_cons]
      omega

theorem upsert_of_lookupL_none (m : List (κ × α)) (k : κ) (v : α)
    (h : lookupL m k = none) : upsert m k v = m ++ [(k, v)] := by
  induction m with
  | nil => simp [upsert]
  | cons p rest ih =>
    by_cases hp : p.1 = k
    · simp [lookupL, hp] at h
    · simp only [lookupL, hp, if_false] at h
      simp [upsert, hp, ih h]

theorem lookupL_append_of_none (m₁ m₂ : List (κ × α)) (k : κ)
    (h : lookupL m₁ k = none) : lookupL (m₁ ++ m₂) k = lookupL m₂ k := by
  induction m₁ with
  | nil => simp
  | cons p rest ih =>
    by_cases hp : p.1 = k
    · simp [lookupL, hp] at h
    · simp only [lookupL, hp, if_false] at h
      simp only [List.cons_append, lookupL, hp, if_false]
      exact ih h

theorem lookupL_append_of_some (m₁ m₂ : List (κ × α)) (k : κ) (v : α)
    (h : lookupL m₁ k = some v) : lookupL (m₁ ++ m₂) k = some v := by
  induction m₁ with
  | nil => simp [lookupL] at h
  | cons p rest ih =>
    by_cases hp : p.1 = k
    · simp only [lookupL, hp, if_true] at h
      simp only [List.cons_append, lookupL, hp, if_true]
      exact h
    · simp only [lookupL, hp, if_false] at h
      simp only [List.cons_append, lookupL, hp, if_false]
      exact ih h

/-- Copying a duplicate-free association list entry by entry (`for k, v :=
range m { out[k] = v }`) reproduces the list. -/
theorem foldl_upsert_copy (m : List (κ × α)) (hnd : keysNodup m) :
    ∀ acc : List (κ × α), (∀ k, k ∈ m.map Prod.fst → lookupL acc k = none) →
      m.foldl (fun a p => upsert a p.1 p.2) acc = acc ++ m := by
  induction m with
  | nil => intro acc _; simp
  | cons p rest ih =>
    intro acc hdisj
    unfold keysNodup at hnd
    simp only [List.map_cons, List.nodup_cons] at hnd
    have hacc : lookupL acc p.1 = none := hdisj p.1 (by simp)
    have hstep : upsert acc p.1 p.2 = acc ++ [(p.1, p.2)] :=
      upsert_of_lookupL_none acc p.1 p.2 hacc
    have hdisj' : ∀ k, k ∈ rest.map Prod.fst →
        lookupL (acc ++ [(p.1, p.2)]) k = none := by
      intro k hk
      have hk1 : lookupL acc k = none := hdisj k (by simp [hk])
      have hkp : ¬ p.1 = k := fun hh => hnd.1 (hh ▸ hk)
      rw [lookupL_append_of_none acc [(p.1, p.2)] k hk1]
      simp [lookupL, hkp]
    calc (p :: rest).foldl (fun a q => upsert a q.1 q.2) acc
        = rest.foldl (fun a q => upsert a q.1 q.2) (acc ++ [(p.1, p.2)]) := by
          simp [hstep]
      _ = (acc ++ [(p.1, p.2)]) ++ rest := ih hnd.2 (acc ++ [(p.1, p.2)]) hdisj'
      _ = acc ++ p :: rest := by simp

/-- Lookup through a value-only transformation of an association list. -/
theorem lookupL_map_snd {β : Type} (m : List (κ × α)) (f : α → β) (k : κ) :
    lookupL (m.map (fun p => (p.1, f p.2))) k = (lookupL m k).map f := by
  induction m with
  | nil => simp [lookupL]
  | cons p rest ih =>
    by_cases h : p.1 = k
    · simp [lookupL, h]
    · simp [lookupL, h, ih]

end MapLemmas

theorem trySync_lockID_eq (lk : LockKeeper) (info : Info)
    (sts : List SourceTables) :
    (lk.TrySync info sts).lockID = genDDLLockID info := rfl

theorem trySync_keeper_locks (lk : LockKeeper) (info : Info)
    (sts : List SourceTables) :
    (lk.TrySync info sts).keeper.locks =
      upsert lk.locks (genDDLLockID info)
        ((lk.resolveLock info sts).TrySync info.Source info.UpSchema
          info.UpTable info.DDLs info.TableInfoAfter sts).1 := rfl

/-- C1: the lock identifier computed by `genDDLLockID` is a pure function of
the Info's task and downstream schema/table — two Infos agreeing on those
three fields yield the same identifier, whatever their other fields — and two
`TrySync` calls on the same `LockKeeper` with such Infos resolve to the same
lock entry: they return the same lock ID, and the second call resolves
exactly the lock stored under that ID rather than creating a new one. -/
theorem genDDLLockID_pure_and_shared (i₁ i₂ : Info) (lk : LockKeeper)
    (sts₁ sts₂ : List SourceTables)
    (ht : i₁.Task = i₂.Task) (hs : i₁.DownSchema = i₂.DownSchema)
    (hd : i₁.DownTable = i₂.DownTable) :
    genDDLLockID i₁ = genDDLLockID i₂ ∧
    (lk.TrySync i₁ sts₁).lockID =
      ((lk.TrySync i₁ sts₁).keeper.TrySync i₂ sts₂).lockID ∧
    lookupL (lk.TrySync i₁ sts₁).keeper.locks (genDDLLockID i₂) =
      some ((lk.TrySync i₁ sts₁).keeper.resolveLock i₂ sts₂) := by
  have hID : genDDLLockID i₁ = genDDLLockID i₂ := by
    unfold genDDLLockID
    rw [ht, hs, hd]
  refine ⟨hID, ?_, ?_⟩
  · rw [trySync_lockID_eq, trySync_lockID_eq, hID]
  · have hlook : lookupL (lk.TrySync i₁ sts₁).keeper.locks (genDDLLockID i₂) =
        some ((lk.resolveLock i₁ sts₁).TrySync i₁.Source i₁.UpSchema
          i₁.UpTable i₁.DDLs i₁.TableInfoAfter sts₁).1 := by
      rw [trySync_keeper_locks, ← hID]
      exact lookupL_upsert_self _ _ _
    rw [hlook]
    unfold LockKeeper.resolveLock
    rw [hlook]
    rfl

/-- Closed instance of `genDDLLockID_pure_and_shared`: two Infos agreeing on
(task, downstream schema, downstream table) but differing everywhere else. -/
theorem genDDLLockID_pure_and_shared_witness :
    infoEx1.Task = infoEx2.Task ∧ infoEx1.DownSchema = infoEx2.DownSchema ∧
    infoEx1.DownTable = infoEx2.DownTable ∧
    (genDDLLockID infoEx1 = genDDLLockID infoEx2 ∧
     (LockKeeper.TrySync ⟨[]⟩ infoEx1 []).lockID =
       ((LockKeeper.TrySync ⟨[]⟩ infoEx1 []).keeper.TrySync infoEx2 []).lockID ∧
     lookupL (LockKeeper.TrySync ⟨[]⟩ infoEx1 []).keeper.locks
         (genDDLLockID infoEx2) =
       some ((LockKeeper.TrySync ⟨[]⟩ infoEx1 []).keeper.resolveLock infoEx2 [])) :=
  ⟨rfl, rfl, rfl,
    genDDLLockID_pure_and_shared infoEx1 infoEx2 ⟨[]⟩ [] [] rfl rfl rfl⟩

/-- C2: after `TrySync info sts` returns lock ID `L`, `FindLockByInfo info`
returns the same lock value as `FindLock L` — whether or not an error was
also returned — and that value is exactly the lock `TrySync` used or created
(the resolved lock as updated by `Lock.TrySync`). -/
theorem findLock_findLockByInfo_consistent (lk : LockKeeper) (info : Info)
    (sts : List SourceTables) :
    (lk.TrySync info sts).keeper.FindLockByInfo info =
      (lk.TrySync info sts).keeper.FindLock (lk.TrySync info sts).lockID ∧
    (lk.TrySync info sts).keeper.FindLock (lk.TrySync info sts).lockID =
      some ((lk.resolveLock info sts).TrySync info.Source info.UpSchema
        info.UpTable info.DDLs info.TableInfoAfter sts).1 := by
  constructor
  · rfl
  · show lookupL (lk.TrySync info sts).keeper.locks (genDDLLockID info) = _
    rw [trySync_keeper_locks]
    exact lookupL_upsert_self _ _ _

/-- C9: `TrySync` always returns the computed lock identifier as its first
result — also when it reports a conflict error — and when no lock yet exists
for that identifier it creates one via `NewLock` seeded with the Info's task,
the pre-change schema `TableInfoBefore`, and the supplied table sets, then
delegates the synchronization decision to that lock's `TrySync`. -/
theorem trySync_returns_id_and_seeds (lk : LockKeeper) (info : Info)
    (sts : List SourceTables) :
    (lk.TrySync info sts).lockID = genDDLLockID info ∧
    (lookupL lk.locks (genDDLLockID info) = none →
      lk.resolveLock info sts =
        NewLock (genDDLLockID info) info.Task info.TableInfoBefore sts ∧
      (lk.TrySync info sts).keeper.locks =
        upsert lk.locks (genDDLLockID info)
          ((NewLock (genDDLLockID info) info.Task info.TableInfoBefore
            sts).TrySync info.Source info.UpSchema info.UpTable info.DDLs
              info.TableInfoAfter sts).1 ∧
      (lk.TrySync info sts).newDDLs =
        ((NewLock (genDDLLockID info) info.Task info.TableInfoBefore
          sts).TrySync info.Source info.UpSchema info.UpTable info.DDLs
            info.TableInfoAfter sts).2.1 ∧
      (lk.TrySync info sts).err =
        ((NewLock (genDDLLockID info) info.Task info.TableInfoBefore
          sts).TrySync info.Source info.UpSchema info.UpTable info.DDLs
            info.TableInfoAfter sts).2.2) := by
  refine ⟨rfl, fun h => ?_⟩
  have hres : lk.resolveLock info sts =
      NewLock (genDDLLockID info) info.Task info.TableInfoBefore sts := by
    unfold LockKeeper.resolveLock
    rw [h]
  refine ⟨hres, ?_, ?_, ?_⟩
  · rw [trySync_keeper_locks, hres]
  · show ((lk.resolveLock info sts).TrySync info.Source info.UpSchema
      info.UpTable info.DDLs info.TableInfoAfter sts).2.1 = _
    rw [hres]
  · show ((lk.resolveLock info sts).TrySync info.Source info.UpSchema
      info.UpTable info.DDLs info.TableInfoAfter sts).2.2 = _
    rw [hres]

/-- Closed instance of `trySync_returns_id_and_seeds` at an empty keeper,
where the lock does not yet exist. -/
theorem trySync_returns_id_and_seeds_witness :
    lookupL (NewLockKeeper).locks (genDDLLockID infoEx1) = none ∧
    NewLockKeeper.resolveLock infoEx1 [] =
      NewLock (genDDLLockID infoEx1) infoEx1.Task infoEx1.TableInfoBefore [] :=
  ⟨rfl, ((trySync_returns_id_and_seeds NewLockKeeper infoEx1 []).2 rfl).1⟩

/-- C5: `RemoveLock` on an absent identifier returns `false` and leaves the
number of stored locks unchanged; on a present identifier it returns `true`
and shrinks the lock count by exactly one; a second `RemoveLock` with the
same identifier then returns `false`. -/
theorem removeLock_spec (lk : LockKeeper) (lockID : String)
    (hnd : keysNodup lk.locks) :
    (lookupL lk.locks lockID = none →
      (lk.RemoveLock lockID).2 = false ∧
      (lk.RemoveLock lockID).1.locks.length = lk.locks.length) ∧
    ((lookupL lk.locks lockID).isSome →
      (lk.RemoveLock lockID).2 = true ∧
      (lk.RemoveLock lockID).1.locks.length + 1 = lk.locks.length) ∧
    ((lk.RemoveLock lockID).1.RemoveLock lockID).2 = false := by
  refine ⟨fun h => ⟨?_, ?_⟩, fun h => ⟨?_, ?_⟩, ?_⟩
  · simp [LockKeeper.RemoveLock, h]
  · simp [LockKeeper.RemoveLock, eraseKey_of_lookupL_none _ _ h]
  · simp [LockKeeper.RemoveLock, h]
  · exact length_eraseKey_of_nodup _ _ hnd h
  · simp [LockKeeper.RemoveLock, lookupL_eraseKey_self]

/-- Closed instance of `removeLock_spec` on the one-lock keeper. -/
theorem removeLock_spec_witness :
    keysNodup lkEx.locks ∧ (lookupL lkEx.locks "L").isSome ∧
    ((lkEx.RemoveLock "L").2 = true ∧
     (lkEx.RemoveLock "L").1.locks.length + 1 = lkEx.locks.length) ∧
    ((lkEx.RemoveLock "L").1.RemoveLock "L").2 = false :=
  ⟨by decide, by decide,
   (removeLock_spec lkEx "L" (by decide)).2.1 (by decide),
   (removeLock_spec lkEx "L" (by decide)).2.2⟩

/-- C3: `Update` with the tombstone set removes exactly the (Task, Source)
entry — every other (task, source) entry reads unchanged — and returns `true`
iff that entry previously existed; with the tombstone unset it always returns
`true` and afterwards the (Task, Source) entry equals the given value. -/
theorem tableKeeper_update_spec (tk : TableKeeper) (st : SourceTables) :
    (st.IsDeleted = true →
      ((tk.Update st).2 = true ↔ (tk.entry st.Task st.Source).isSome) ∧
      (tk.Update st).1.entry st.Task st.Source = none ∧
      ∀ task source, task ≠ st.Task ∨ source ≠ st.Source →
        (tk.Update st).1.entry task source = tk.entry task source) ∧
    (st.IsDeleted = false →
      (tk.Update st).2 = true ∧
      (tk.Update st).1.entry st.Task st.Source = some st) := by
  constructor
  · intro hdel
    rcases htask : lookupL tk.tables st.Task with _ | inner
    · refine ⟨?_, ?_, ?_⟩
      · simp [TableKeeper.Update, hdel, htask, TableKeeper.entry]
      · simp [TableKeeper.Update, hdel, htask, TableKeeper.entry]
      · intro task source _
        simp [TableKeeper.Update, hdel, htask]
    · rcases hsrc : lookupL inner st.Source with _ | stv
      · refine ⟨?_, ?_, ?_⟩
        · simp [TableKeeper.Update, hdel, htask, hsrc, TableKeeper.entry]
        · simp [TableKeeper.Update, hdel, htask, hsrc, TableKeeper.entry]
        · intro task source _
          simp [TableKeeper.Update, hdel, htask, hsrc]
      · refine ⟨?_, ?_, ?_⟩
        · simp [TableKeeper.Update, hdel, htask, hsrc, TableKeeper.entry]
        · simp [TableKeeper.Update, hdel, htask, hsrc, TableKeeper.entry,
                lookupL_upsert_self, lookupL_eraseKey_self]
        · intro task source hne
          rcases hne with hne | hne
          · simp [TableKeeper.Update, hdel, htask, hsrc, TableKeeper.entry,
                  lookupL_upsert_ne _ _ _ _ hne]
          · by_cases hteq : task = st.Task
            · subst hteq
              simp [TableKeeper.Update, hdel, htask, hsrc, TableKeeper.entry,
                    lookupL_upsert_self, lookupL_eraseKey_ne _ _ _ hne]
            · simp [TableKeeper.Update, hdel, htask, hsrc, TableKeeper.entry,
                    lookupL_upsert_ne _ _ _ _ hteq]
  · intro hdel
    constructor
    · simp [TableKeeper.Update, hdel]
    · simp [TableKeeper.Update, hdel, TableKeeper.entry, lookupL_upsert_self]

/-- Closed instance of `tableKeeper_update_spec`: a tombstoned update on the
present (t, s) entry removes it and reports `true`. -/
theorem tableKeeper_update_spec_witness :
    ({ stEx with IsDeleted := true } : SourceTables).IsDeleted = true ∧
    ((tkEx.Update { stEx with IsDeleted := true }).2 = true ↔
      (tkEx.entry "t" "s").isSome) ∧
    (tkEx.Update { stEx with IsDeleted := true }).1.entry "t" "s" = none :=
  ⟨rfl,
   ((tableKeeper_update_spec tkEx { stEx with IsDeleted := true }).1 rfl).1,
   ((tableKeeper_update_spec tkEx { stEx with IsDeleted := true }).1 rfl).2.1⟩

/-- C7: `AddTable` and `RemoveTable` against a task the keeper does not know
return `false` without error and leave the keeper's state entirely unchanged
(in particular they create no entry for the task). -/
theorem addRemoveTable_unknown_task (tk : TableKeeper)
    (task source schema table : String)
    (h : lookupL tk.tables task = none) :
    tk.AddTable task source schema table = (tk, false) ∧
    tk.RemoveTable task source schema table = (tk, false) := by
  constructor
  · simp [TableKeeper.AddTable, h]
  · simp [TableKeeper.RemoveTable, h]

/-- Closed instance of `addRemoveTable_unknown_task`: the empty keeper knows
no task. -/
theorem addRemoveTable_unknown_task_witness :
    lookupL (NewTableKeeper).tables "t" = none ∧
    NewTableKeeper.AddTable "t" "s" "sch" "tbl" = (NewTableKeeper, false) ∧
    NewTableKeeper.RemoveTable "t" "s" "sch" "tbl" = (NewTableKeeper, false) :=
  ⟨rfl,
   (addRemoveTable_unknown_task NewTableKeeper "t" "s" "sch" "tbl" rfl).1,
   (addRemoveTable_unknown_task NewTableKeeper "t" "s" "sch" "tbl" rfl).2⟩

/-! Lemmas on `SourceTables.AddTable`/`RemoveTable` and their lifting through
`TableKeeper`, used for the add/remove idempotence claims. -/

theorem sourceTables_addTable_of_absent (st : SourceTables)
    (schema table : String) (h : st.hasTableB schema table = false) :
    (st.AddTable schema table).2 = true ∧
    (st.AddTable schema table).1.hasTableB schema table = true := by
  unfold SourceTables.hasTableB at h ⊢
  unfold SourceTables.AddTable
  rcases hs : lookupL st.Tables schema with _ | tbls
  · simp [hs, lookupL_upsert_self]
  · rw [hs] at h
    simp only [decide_eq_false_iff_not] at h
    simp [hs, h, lookupL_upsert_self]

theorem sourceTables_addTable_of_present (st : SourceTables)
    (schema table : String) (h : st.hasTableB schema table = true) :
    st.AddTable schema table = (st, false) := by
  unfold SourceTables.hasTableB at h
  unfold SourceTables.AddTable
  rcases hs : lookupL st.Tables schema with _ | tbls
  · rw [hs] at h; simp at h
  · rw [hs] at h
    simp only [decide_eq_true_eq] at h
    simp [hs, h]

theorem sourceTables_removeTable_of_present (st : SourceTables)
    (schema table : String) (h : st.hasTableB schema table = true) :
    (st.RemoveTable schema table).2 = true ∧
    (st.RemoveTable schema table).1.hasTableB schema table = false := by
  unfold SourceTables.hasTableB at h ⊢
  unfold SourceTables.RemoveTable
  rcases hs : lookupL st.Tables schema with _ | tbls
  · rw [hs] at h; simp at h
  · rw [hs] at h
    simp only [decide_eq_true_eq] at h
    simp [hs, h, lookupL_upsert_self, List.mem_filter]

theorem sourceTables_removeTable_of_absent (st : SourceTables)
    (schema table : String) (h : st.hasTableB schema table = false) :
    st.RemoveTable schema table = (st, false) := by
  unfold SourceTables.hasTableB at h
  unfold SourceTables.RemoveTable
  rcases hs : lookupL st.Tables schema with _ | tbls
  · simp [hs]
  · rw [hs] at h
    simp only [decide_eq_false_iff_not] at h
    simp [hs, h]

theorem hasTable_eq_resolveST (tk : TableKeeper)
    (task source schema table : String) :
    tk.hasTable task source schema table =
      (tk.resolveST task source).hasTableB schema table := by
  unfold TableKeeper.hasTable TableKeeper.resolveST
  rcases h : tk.entry task source with _ | st
  · simp [SourceTables.hasTableB, NewSourceTables, lookupL]
  · rfl

theorem resolveST_of_entry (tk : TableKeeper) (task source : String)
    (st : SourceTables) (h : tk.entry task source = some st) :
    tk.resolveST task source = st := by
  unfold TableKeeper.resolveST
  rw [h]

/-- `TableKeeper.AddTable` on a known task, described through `resolveST`:
the returned flag and the stored entry both come from
`SourceTables.AddTable`, and the task key stays present. -/
theorem keeper_addTable_eq (tk : TableKeeper)
    (task source schema table : String)
    (inner : List (String × SourceTables))
    (hinner : lookupL tk.tables task = some inner) :
    (tk.AddTable task source schema table).2 =
      ((tk.resolveST task source).AddTable schema table).2 ∧
    (tk.AddTable task source schema table).1.entry task source =
      some ((tk.resolveST task source).AddTable schema table).1 ∧
    lookupL (tk.AddTable task source schema table).1.tables task =
      some (upsert inner source
        ((tk.resolveST task source).AddTable schema table).1) := by
  rcases hsrc : lookupL inner source with _ | st0
  · have hres : tk.resolveST task source = NewSourceTables task source [] := by
      unfold TableKeeper.resolveST TableKeeper.entry
      rw [hinner]
      simp [hsrc]
    refine ⟨?_, ?_, ?_⟩ <;>
      simp [TableKeeper.AddTable, TableKeeper.entry, hinner, hsrc, hres,
        lookupL_upsert_self]
  · have hres : tk.resolveST task source = st0 := by
      unfold TableKeeper.resolveST TableKeeper.entry
      rw [hinner]
      simp [hsrc]
    refine ⟨?_, ?_, ?_⟩ <;>
      simp [TableKeeper.AddTable, TableKeeper.entry, hinner, hsrc, hres,
        lookupL_upsert_self]

/-- `TableKeeper.RemoveTable` on a present (task, source) entry, described
through that entry: the returned flag and the stored entry both come from
`SourceTables.RemoveTable`. -/
theorem keeper_removeTable_eq (tk : TableKeeper)
    (task source schema table : String) (st : SourceTables)
    (h : tk.entry task source = some st) :
    (tk.RemoveTable task source schema table).2 =
      (st.RemoveTable schema table).2 ∧
    (tk.RemoveTable task source schema table).1.entry task source =
      some (st.RemoveTable schema table).1 := by
  unfold TableKeeper.entry at h
  rcases htask : lookupL tk.tables task with _ | inner
  · rw [htask] at h
    simp at h
  · rw [htask] at h
    simp only [Option.some_bind] at h
    refine ⟨?_, ?_⟩
    · simp [TableKeeper.RemoveTable, htask, h]
    · simp [TableKeeper.RemoveTable, TableKeeper.entry, htask, h,
        lookupL_upsert_self]

/-- C6 as frozen fails: `tkEx` is a keeper whose state already contains task
`t`, yet the first of two identical `AddTable` calls returns `false` (the
table is already present), not `true`. -/
theorem addTable_twice_cex :
    (lookupL tkEx.tables "t").isSome = true ∧
    (tkEx.AddTable "t" "s" "sch" "tbl").2 = false := by decide

/-- C6 (amended): for every `TableKeeper` whose state already contains the
given task *and does not yet hold the given table under (task, source,
schema)*, calling `AddTable` twice with identical arguments returns `true`
then `false`, and afterwards calling `RemoveTable` twice with identical
arguments returns `true` then `false`. -/
theorem addTable_removeTable_idempotent (tk : TableKeeper)
    (task source schema table : String)
    (htask : (lookupL tk.tables task).isSome = true)
    (habs : tk.hasTable task source schema table = false) :
    (tk.AddTable task source schema table).2 = true ∧
    ((tk.AddTable task source schema table).1.AddTable task source schema
      table).2 = false ∧
    (((tk.AddTable task source schema table).1.AddTable task source schema
      table).1.RemoveTable task source schema table).2 = true ∧
    ((((tk.AddTable task source schema table).1.AddTable task source schema
      table).1.RemoveTable task source schema table).1.RemoveTable task source
      schema table).2 = false := by
  rcases Option.isSome_iff_exists.mp htask with ⟨inner, hinner⟩
  have hK1 := keeper_addTable_eq tk task source schema table inner hinner
  have habs0 : (tk.resolveST task source).hasTableB schema table = false := by
    rw [← hasTable_eq_resolveST]
    exact habs
  have hA1 := sourceTables_addTable_of_absent _ schema table habs0
  set tk1 := (tk.AddTable task source schema table).1
  set st1 := ((tk.resolveST task source).AddTable schema table).1
  have hret1 : (tk.AddTable task source schema table).2 = true := by
    rw [hK1.1]
    exact hA1.1
  have hentry1 : tk1.entry task source = some st1 := hK1.2.1
  have htask1 : lookupL tk1.tables task = some (upsert inner source st1) :=
    hK1.2.2
  have hres1 : tk1.resolveST task source = st1 :=
    resolveST_of_entry _ _ _ _ hentry1
  have hpres1 : st1.hasTableB schema table = true := hA1.2
  have hK2 := keeper_addTable_eq tk1 task source schema table _ htask1
  have hA2 : st1.AddTable schema table = (st1, false) :=
    sourceTables_addTable_of_present st1 schema table hpres1
  have hret2 : (tk1.AddTable task source schema table).2 = false := by
    rw [hK2.1, hres1, hA2]
  set tk2 := (tk1.AddTable task source schema table).1
  have hentry2 : tk2.entry task source = some st1 := by
    have h2 := hK2.2.1
    rw [hres1, hA2] at h2
    exact h2
  have hK3 := keeper_removeTable_eq tk2 task source schema table st1 hentry2
  have hR1 := sourceTables_removeTable_of_present st1 schema table hpres1
  have hret3 : (tk2.RemoveTable task source schema table).2 = true := by
    rw [hK3.1]
    exact hR1.1
  set tk3 := (tk2.RemoveTable task source schema table).1
  set st2 := (st1.RemoveTable schema table).1
  have hentry3 : tk3.entry task source = some st2 := hK3.2
  have habs2 : st2.hasTableB schema table = false := hR1.2
  have hK4 := keeper_removeTable_eq tk3 task source schema table st2 hentry3
  have hR2 : st2.RemoveTable schema table = (st2, false) :=
    sourceTables_removeTable_of_absent st2 schema table habs2
  have hret4 : (tk3.RemoveTable task source schema table).2 = false := by
    rw [hK4.1, hR2]
  exact ⟨hret1, hret2, hret3, hret4⟩

/-- Closed instance of `addTable_removeTable_idempotent` on a keeper that
contains the task but not the table. -/
theorem addTable_removeTable_idempotent_witness :
    (lookupL tkEmptyTask.tables "t").isSome = true ∧
    tkEmptyTask.hasTable "t" "s" "sch" "tbl" = false ∧
    ((tkEmptyTask.AddTable "t" "s" "sch" "tbl").2 = true ∧
     ((tkEmptyTask.AddTable "t" "s" "sch" "tbl").1.AddTable "t" "s" "sch"
       "tbl").2 = false ∧
     (((tkEmptyTask.AddTable "t" "s" "sch" "tbl").1.AddTable "t" "s" "sch"
       "tbl").1.RemoveTable "t" "s" "sch" "tbl").2 = true ∧
     ((((tkEmptyTask.AddTable "t" "s" "sch" "tbl").1.AddTable "t" "s" "sch"
       "tbl").1.RemoveTable "t" "s" "sch" "tbl").1.RemoveTable "t" "s" "sch"
       "tbl").2 = false) :=
  ⟨by decide, by decide,
   addTable_removeTable_idempotent tkEmptyTask "t" "s" "sch" "tbl"
     (by decide) (by decide)⟩

/-- C10: a tombstoned `Update` never deletes a task key — removing every
source of a task leaves the key present (mapped to an empty inner map) — and
`AddTable` on such an emptied task is still accepted: it creates a fresh
`SourceTables` for the source and reports the fresh add, unlike a task never
registered, for which `AddTable` is a no-op returning `false`. -/
theorem emptied_task_still_registered (tk : TableKeeper) (st : SourceTables)
    (task source schema table : String) :
    (st.IsDeleted = true →
      ((lookupL (tk.Update st).1.tables task).isSome ↔
        (lookupL tk.tables task).isSome)) ∧
    (lookupL tk.tables task = some [] →
      (tk.AddTable task source schema table).2 = true ∧
      (tk.AddTable task source schema table).1.entry task source =
        some ((NewSourceTables task source []).AddTable schema table).1) ∧
    (lookupL tk.tables task = none →
      tk.AddTable task source schema table = (tk, false)) := by
  refine ⟨fun hdel => ?_, fun hempty => ?_, fun hnone => ?_⟩
  · rcases htask : lookupL tk.tables st.Task with _ | inner
    · simp [TableKeeper.Update, hdel, htask]
    · rcases hsrc : lookupL inner st.Source with _ | stv
      · simp [TableKeeper.Update, hdel, htask, hsrc]
      · by_cases hteq : task = st.Task
        · subst hteq
          simp [TableKeeper.Update, hdel, htask, hsrc, lookupL_upsert_self]
        · simp [TableKeeper.Update, hdel, htask, hsrc,
            lookupL_upsert_ne _ _ _ _ hteq]
  · have hK := keeper_addTable_eq tk task source schema table [] hempty
    have hres : tk.resolveST task source = NewSourceTables task source [] := by
      unfold TableKeeper.resolveST TableKeeper.entry
      rw [hempty]
      simp [lookupL]
    constructor
    · rw [hK.1, hres]
      exact (sourceTables_addTable_of_absent (NewSourceTables task source [])
        schema table rfl).1
    · rw [hK.2.1, hres]
  · simp [TableKeeper.AddTable, hnone]

/-- Closed instance of `emptied_task_still_registered`: tombstoning the only
source of task `t` keeps the task key, and a later `AddTable` on the emptied
task is accepted. -/
theorem emptied_task_still_registered_witness :
    ({ stEx with IsDeleted := true } : SourceTables).IsDeleted = true ∧
    ((lookupL (tkEx.Update { stEx with IsDeleted := true }).1.tables
        "t").isSome ↔ (lookupL tkEx.tables "t").isSome) ∧
    lookupL tkEmptyTask.tables "t" = some [] ∧
    ((tkEmptyTask.AddTable "t" "s2" "sch" "tbl").2 = true ∧
     (tkEmptyTask.AddTable "t" "s2" "sch" "tbl").1.entry "t" "s2" =
       some ((NewSourceTables "t" "s2" []).AddTable "sch" "tbl").1) :=
  ⟨rfl,
   (emptied_task_still_registered tkEx { stEx with IsDeleted := true }
     "t" "s" "sch" "tbl").1 rfl,
   rfl,
   (emptied_task_still_registered tkEmptyTask stEx "t" "s2" "sch" "tbl").2.1
     rfl⟩

theorem init_lookup (tk : TableKeeper)
    (stm : List (String × List (String × SourceTables))) (task : String) :
    lookupL (tk.Init stm).tables task =
      (lookupL stm task).map
        (fun inner => inner.foldl (fun i q => upsert i q.1 q.2) []) := by
  unfold TableKeeper.Init
  exact lookupL_map_snd stm
    (fun inner => inner.foldl (fun i q => upsert i q.1 q.2) []) task

/-- C4: `FindTables` output is sorted ascending by the `Source` field for any
keeper state (hence regardless of internal map order); an unknown task yields
the empty result, not an error; and immediately after `Init` with a snapshot,
`FindTables` for a task present in the snapshot returns exactly that task's
source tables, each exactly once (a permutation of the snapshot's entries for
the task). -/
theorem findTables_spec :
    (∀ (tk : TableKeeper) (task : String),
      List.Sorted bySource (tk.FindTables task)) ∧
    (∀ (tk : TableKeeper) (task : String),
      lookupL tk.tables task = none → tk.FindTables task = []) ∧
    (∀ (tk : TableKeeper)
       (stm : List (String × List (String × SourceTables)))
       (task : String) (inner : List (String × SourceTables)),
      lookupL stm task = some inner → keysNodup inner →
      ((tk.Init stm).FindTables task).Perm (inner.map Prod.snd)) := by
  refine ⟨fun tk task => ?_, fun tk task h => ?_, fun tk stm task inner h hnd => ?_⟩
  · unfold TableKeeper.FindTables
    rcases lookupL tk.tables task with _ | stm
    · exact List.sorted_nil
    · exact List.sorted_insertionSort bySource (stm.map Prod.snd)
  · simp [TableKeeper.FindTables, h]
  · have hlook := init_lookup tk stm task
    rw [h] at hlook
    simp only [Option.map_some'] at hlook
    have hfold : inner.foldl (fun i q => upsert i q.1 q.2) [] = inner := by
      simpa using foldl_upsert_copy inner hnd [] (fun k _ => rfl)
    rw [hfold] at hlook
    unfold TableKeeper.FindTables
    rw [hlook]
    exact List.perm_insertionSort bySource (inner.map Prod.snd)

/-- Closed instance of `findTables_spec`: after `Init` with `stmEx`, the
lookup for task `t` is a permutation of the snapshot's two entries. -/
theorem findTables_spec_witness :
    lookupL stmEx "t" = some [("s2", stB), ("s1", stA)] ∧
    keysNodup [(("s2" : String), stB), ("s1", stA)] ∧
    ((NewTableKeeper.Init stmEx).FindTables "t").Perm
      ([(("s2" : String), stB), ("s1", stA)].map Prod.snd) :=
  ⟨by decide, by decide,
   findTables_spec.2.2 NewTableKeeper stmEx "t" [("s2", stB), ("s1", stA)]
     (by decide) (by decide)⟩

theorem heapGet_heapSet_ne (h : Heap) (r r' : Nat)
    (m : List (String × Lock)) (hne : r' ≠ r) :
    heapGet (heapSet h r m) r' = heapGet h r' := by
  unfold heapGet heapSet
  rw [lookupL_upsert_ne _ _ _ _ hne]

/-- C8: `Locks` returns an independent copy of the identifier-to-lock
mapping: the returned map reads equal, key for key, to the keeper's own map
at the time of the call; the returned map is a different map object; and a
subsequent insertion into or deletion from either map leaves the other's
contents unchanged. -/
theorem locks_returns_independent_copy (h : Heap) (lk : HLockKeeper)
    (hwf : Heap.WF h) (hlk : lk.locksRef < h.next)
    (hnd : keysNodup (heapGet h lk.locksRef)) :
    (lk.Locks h).2 ≠ lk.locksRef ∧
    (∀ k, lookupL (heapGet (lk.Locks h).1 (lk.Locks h).2) k =
      lookupL (heapGet (lk.Locks h).1 lk.locksRef) k) ∧
    (∀ k v, heapGet (mapAssign (lk.Locks h).1 (lk.Locks h).2 k v)
      lk.locksRef = heapGet (lk.Locks h).1 lk.locksRef) ∧
    (∀ k, heapGet (mapDelete (lk.Locks h).1 (lk.Locks h).2 k) lk.locksRef =
      heapGet (lk.Locks h).1 lk.locksRef) ∧
    (∀ k v, heapGet (mapAssign (lk.Locks h).1 lk.locksRef k v)
      (lk.Locks h).2 = heapGet (lk.Locks h).1 (lk.Locks h).2) ∧
    (∀ k, heapGet (mapDelete (lk.Locks h).1 lk.locksRef k) (lk.Locks h).2 =
      heapGet (lk.Locks h).1 (lk.Locks h).2) := by
  have hne : lk.locksRef ≠ h.next := Nat.ne_of_lt hlk
  have hnext_none : lookupL h.maps h.next = none := by
    rw [lookupL_eq_none_iff]
    intro hmem
    exact absurd (hwf h.next hmem) (lt_irrefl _)
  have hcopy : (heapGet h lk.locksRef).foldl
      (fun acc p => upsert acc p.1 p.2) [] = heapGet h lk.locksRef := by
    simpa using foldl_upsert_copy (heapGet h lk.locksRef) hnd []
      (fun k _ => rfl)
  have hfst : (lk.Locks h).1 =
      ⟨h.maps ++ [(h.next, heapGet h lk.locksRef)], h.next + 1⟩ := by
    unfold HLockKeeper.Locks heapAlloc
    simp only [hcopy]
  have hsnd : (lk.Locks h).2 = h.next := rfl
  have hget_new : heapGet (lk.Locks h).1 (lk.Locks h).2 =
      heapGet h lk.locksRef := by
    rw [hfst, hsnd]
    unfold heapGet
    rw [lookupL_append_of_none _ _ _ hnext_none]
    simp [lookupL]
  have hget_old : heapGet (lk.Locks h).1 lk.locksRef =
      heapGet h lk.locksRef := by
    rw [hfst]
    unfold heapGet
    rcases href : lookupL h.maps lk.locksRef with _ | m
    · rw [lookupL_append_of_none _ _ _ href]
      simp [lookupL, hne, Ne.symm hne, href]
    · rw [lookupL_append_of_some _ _ _ _ href]
  refine ⟨?_, fun k => ?_, fun k v => ?_, fun k => ?_, fun k v => ?_,
    fun k => ?_⟩
  · rw [hsnd]
    exact Ne.symm hne
  · rw [hget_new, hget_old]
  · unfold mapAssign
    rw [heapGet_heapSet_ne _ _ _ _ (hsnd ▸ hne)]
  · unfold mapDelete
    rw [heapGet_heapSet_ne _ _ _ _ (hsnd ▸ hne)]
  · unfold mapAssign
    rw [heapGet_heapSet_ne _ _ _ _ (hsnd ▸ Ne.symm hne)]
  · unfold mapDelete
    rw [heapGet_heapSet_ne _ _ _ _ (hsnd ▸ Ne.symm hne)]

/-- Closed instance of `locks_returns_independent_copy` on the one-lock
heap. -/
theorem locks_returns_independent_copy_witness :
    Heap.WF hEx ∧ hkEx.locksRef < hEx.next ∧
    keysNodup (heapGet hEx hkEx.locksRef) ∧
    (hkEx.Locks hEx).2 ≠ hkEx.locksRef ∧
    lookupL (heapGet (hkEx.Locks hEx).1 (hkEx.Locks hEx).2) "L" =
      lookupL (heapGet (hkEx.Locks hEx).1 hkEx.locksRef) "L" ∧
    heapGet (mapAssign (hkEx.Locks hEx).1 (hkEx.Locks hEx).2 "M" lockEx)
      hkEx.locksRef = heapGet (hkEx.Locks hEx).1 hkEx.locksRef ∧
    heapGet (mapDelete (hkEx.Locks hEx).1 hkEx.locksRef "L")
      (hkEx.Locks hEx).2 = heapGet (hkEx.Locks hEx).1 (hkEx.Locks hEx).2 :=
  ⟨by decide, by decide, by decide,
   (locks_returns_independent_copy hEx hkEx (by decide) (by decide)
     (by decide)).1,
   (locks_returns_independent_copy hEx hkEx (by decide) (by decide)
     (by decide)).2.1 "L",
   (locks_returns_independent_copy hEx hkEx (by decide) (by decide)
     (by decide)).2.2.1 "M" lockEx,
   (locks_returns_independent_copy hEx hkEx (by decide) (by decide)
     (by decide)).2.2.2.2.2 "L"⟩
